import Mathlib

/-!
Verification of the Yoruba synonym finder's dictionary lookup pipeline.

The development shallowly embeds the dictionary data model and the
search/loading/generation code paths of the repository:

* normalize_word, search_synonyms      (simple_query.py)
* search_synonyms with the 1000-entry synonym-scan limit and key sampling
                                       (simple_app.py, api/index.py)
* the difflib.get_close_matches fuzzy matcher that both call
  (modelled faithfully from the CPython difflib algorithm: a
  SequenceMatcher total-matching-block ratio, a cutoff filter, and
  nlargest = descending sort + take)
* load_dictionary and the minimal-dictionary fallback (api/index.py)
* the module-level dictionary extension loop (api/index.py)
* api_search                           (api/index.py)
* the dictionary size classification   (simple_app.py, api/index.py)
* the expansion batch step and synonym generator
                                       (scripts/expand_massive_dictionary.py)

Python dicts are insertion ordered, so a dictionary is embedded as an
association list.  Python floats appear only as the constants
1.0 - 0.1*i and the cutoff 0.6, which are represented exactly as
rationals (built with mkRat so that they evaluate by kernel reduction).
-/

set_option maxRecDepth 1000000

namespace YorubaSynonymFinder

/-! ## Strings: normalization (simple_query.py normalize_word) -/

/-- Whitespace test used by the model of str.strip(). -/
def isSpace (c : Char) : Bool := c.isWhitespace

/-- Model of str.strip(): drop whitespace from both ends. -/
def trimChars (cs : List Char) : List Char :=
  ((cs.dropWhile isSpace).reverse.dropWhile isSpace).reverse

/-- normalize_word: lowercase then strip, as in word.lower().strip().
Lowercasing is modelled per character with Char.toLower. -/
def normalize_word (w : String) : String :=
  ⟨trimChars (w.data.map Char.toLower)⟩

/-- Python string comparison (lexicographic on code points), used by the
tuple comparison inside heapq.nlargest in difflib.get_close_matches. -/
def charListLt : List Char → List Char → Bool
  | [], [] => false
  | [], _ :: _ => true
  | _ :: _, [] => false
  | c :: cs, d :: ds =>
      decide (c.toNat < d.toNat) || (c == d && charListLt cs ds)

/-! ## Data model

A dictionary entry as used by every search path: the headword, its part
of speech and the ordered synonym list.  (The generated JSON entries also
carry a definition and an example sentence; no code path under
verification reads those fields, so they are not modelled.)
A dictionary is an insertion-ordered association list from headword keys
to entries, mirroring a Python dict. -/

structure Entry where
  headword : String
  pos : String
  synonyms : List String
  deriving DecidableEq, Inhabited

abbrev Dict := List (String × Entry)

/-- Key membership and item lookup of a Python dict: the entry stored at
the (unique) key, as an Option. -/
def dictLookup (d : Dict) (k : String) : Option Entry :=
  (d.find? (fun p => p.1 == k)).map Prod.snd

/-- dictionary.keys() in iteration order. -/
def dictKeys (d : Dict) : List String := d.map Prod.fst

/-- Python dict item assignment: replace in place if the key exists
(keeping its position in iteration order), otherwise append. -/
def dictInsert (d : Dict) (k : String) (e : Entry) : Dict :=
  if k ∈ dictKeys d then d.map (fun p => if p.1 = k then (k, e) else p)
  else d ++ [(k, e)]

/-- The synonym scan stage: iterate over items in insertion order and
return the first entry one of whose synonyms normalizes to the query. -/
def scanParent (d : Dict) (q : String) : Option Entry :=
  (d.find? (fun p => p.2.synonyms.any (fun s => normalize_word s == q))).map Prod.snd

/-- One ranked search result.  simple_query.py/simple_app.py nest the
whole entry under an "entry" key; api/index.py inlines the same three
entry fields.  Both are modelled by this record (the search_time field of
simple_app.py is wall-clock instrumentation and is not modelled). -/
structure SearchResult where
  rank : Nat
  similarity : ℚ
  entry : Entry
  deriving DecidableEq, Inhabited

/-! ## Model of difflib.get_close_matches

CPython difflib with isjunk=None and words far below the 200-character
autojunk threshold: SequenceMatcher's ratio is 2*M/T where M is the total
size of the matching blocks found by recursively taking the longest
matching block, and T the total length; get_close_matches keeps the
possibilities whose ratio reaches the cutoff and returns the top n by
descending (ratio, string) tuple order (heapq.nlargest is documented as
sorted(..., reverse=True)[:n]).  The quick_ratio/real_quick_ratio gates
are upper bounds of ratio and so do not change the selected set. -/

/-- Ascending positions of character c in b (SequenceMatcher's b2j). -/
def b2j (b : List Char) (c : Char) : List Nat :=
  (b.enum.filter (fun p => p.2 == c)).map Prod.fst

/-- Lookup in the j2len row map of SequenceMatcher.find_longest_match. -/
def lookupJ2Len (m : List (Nat × Nat)) (j : Nat) : Nat :=
  match m.find? (fun p => p.1 == j) with
  | some p => p.2
  | none => 0

/-- One row (one index i of a) of the find_longest_match dynamic program:
extend runs recorded in j2len, build the new row, track the best block. -/
def lmRow (j2len : List (Nat × Nat)) (i : Nat) (js : List Nat)
    (best : Nat × Nat × Nat) : (Nat × Nat × Nat) × List (Nat × Nat) :=
  js.foldl
    (fun st j =>
      let k := if j == 0 then 1 else lookupJ2Len j2len (j - 1) + 1
      let best' := if k > st.1.2.2 then (i + 1 - k, j + 1 - k, k) else st.1
      (best', st.2 ++ [(j, k)]))
    (best, [])

/-- SequenceMatcher.find_longest_match on the index ranges
[alo, ahi) of a and [blo, bhi) of b; returns (i, j, size). -/
def find_longest_match (a b : List Char) (alo ahi blo bhi : Nat) :
    Nat × Nat × Nat :=
  (((a.enum.filter (fun p => decide (alo ≤ p.1) && decide (p.1 < ahi))).foldl
    (fun st p =>
      let js := (b2j b p.2).filter (fun j => decide (blo ≤ j) && decide (j < bhi))
      lmRow st.2 p.1 js st.1)
    ((alo, blo, 0), []))).1

/-- Total size of the matching blocks (get_matching_blocks): take the
longest block, recurse on both sides.  The fuel argument bounds the
recursion depth; each recursive call strictly shrinks the ranges, so
range-sum + 1 fuel is always sufficient. -/
def matchTotal (a b : List Char) : Nat → Nat → Nat → Nat → Nat → Nat
  | 0, _, _, _, _ => 0
  | fuel + 1, alo, ahi, blo, bhi =>
    match find_longest_match a b alo ahi blo bhi with
    | (i, j, k) =>
      if k == 0 then 0
      else k + matchTotal a b fuel alo i blo j
             + matchTotal a b fuel (i + k) ahi (j + k) bhi

/-- SequenceMatcher(None, a, b).ratio() = 2*M/T (1 when both empty). -/
def ratio (a b : String) : ℚ :=
  let la := a.data.length
  let lb := b.data.length
  if la + lb == 0 then 1
  else mkRat (2 * (matchTotal a.data b.data (la + lb + 1) 0 la 0 lb : Int)) (la + lb)

/-- Descending comparison on (score, string) pairs, exactly Python's
tuple comparison used by nlargest: larger score first, ties broken by
the larger string. -/
def pairGT (p q : ℚ × String) : Bool :=
  decide (q.1 < p.1) || (p.1 == q.1 && charListLt q.2.data p.2.data)

/-- Insert into a descending-sorted list (after equal elements). -/
def insertDesc (x : ℚ × String) : List (ℚ × String) → List (ℚ × String)
  | [] => [x]
  | y :: ys => if pairGT x y then x :: y :: ys else y :: insertDesc x ys

/-- sorted(..., reverse=True) on (score, string) pairs. -/
def sortDesc : List (ℚ × String) → List (ℚ × String)
  | [] => []
  | x :: xs => insertDesc x (sortDesc xs)

/-- difflib.get_close_matches(word, possibilities, n, cutoff): keep the
possibilities whose ratio against word reaches the cutoff, order by
descending (ratio, possibility) and return the first n. -/
def get_close_matches (word : String) (possibilities : List String)
    (n : Nat) (cutoff : ℚ) : List String :=
  let scored := (possibilities.filter (fun x => decide (cutoff ≤ ratio x word))).map
    (fun x => (ratio x word, x))
  ((sortDesc scored).take n).map Prod.snd

/-! ## The search function (simple_query.py) and its web variant
(simple_app.py / api/index.py) -/

/-- The fuzzy stage shared by all variants: for the i-th close match
(0-based), rank i+1 and similarity 1.0 - 0.1*i (mkRat (10 - i) 10 is
exactly that rational), with the entry looked up at the matched key. -/
def fuzzyResults (d : Dict) (candidates : List String) (q : String) (n : Nat) :
    List SearchResult :=
  (get_close_matches q candidates n (mkRat 3 5)).enum.map
    (fun p =>
      { rank := p.1 + 1
        similarity := mkRat (10 - (p.1 : Int)) 10
        entry := (dictLookup d p.2).getD default })

/-- search_synonyms of simple_query.py: direct headword match, then the
unlimited synonym scan, then difflib fuzzy matching over all keys with
cutoff 0.6 = 3/5. -/
def search_synonyms (q : String) (d : Dict) (max_results : Nat) :
    List SearchResult :=
  match dictLookup d (normalize_word q) with
  | some e => [⟨1, 1, e⟩]
  | none =>
    match scanParent d (normalize_word q) with
    | some e => [⟨1, 1, e⟩]
    | none => fuzzyResults d (dictKeys d) (normalize_word q) max_results

/-- The candidate keys handed to difflib by simple_app.py/api/index.py:
all keys, except that dictionaries above 10000 entries are sampled as the
first 500 keys plus a random sample of up to 2500 of the rest; the
random.sample call is abstracted as the sample parameter. -/
def consideredKeys (sample : List String → List String) (d : Dict) :
    List String :=
  let ks := dictKeys d
  if 10000 < ks.length then ks.take 500 ++ sample (ks.drop 500) else ks

/-- search_synonyms of simple_app.py and api/index.py: direct match, then
the synonym scan cut off after synonym_check_limit = 1000 entries, then
difflib fuzzy matching over the (possibly sampled) keys. -/
def search_synonyms_api (sample : List String → List String) (q : String)
    (d : Dict) (max_results : Nat) : List SearchResult :=
  match dictLookup d (normalize_word q) with
  | some e => [⟨1, 1, e⟩]
  | none =>
    match scanParent (d.take 1000) (normalize_word q) with
    | some e => [⟨1, 1, e⟩]
    | none => fuzzyResults d (consideredKeys sample d) (normalize_word q) max_results

/-! ## Dictionary loading with its fallback chain (api/index.py) -/

/-- Outcome of opening and JSON-parsing one candidate file: the file may
be missing (FileNotFoundError), malformed (json.JSONDecodeError) or a
valid dictionary.  The file system is abstracted as a map from paths to
outcomes. -/
inductive FileResult where
  | missing
  | malformed
  | ok (d : Dict)

/-- Whether a candidate file loads successfully. -/
def FileResult.isOk : FileResult → Bool
  | .ok _ => true
  | _ => false

/-- The dictionary file preference order of load_dictionary. -/
def dict_files : List String :=
  ["yoruba_synonyms_massive.json",
   "yoruba_synonyms_expanded.json",
   "yoruba_synonyms_static.json"]

/-- All candidate paths: for each preferred file, the bare name, the
api/ variant and the ../ variant, in that order. -/
def all_paths : List String :=
  (dict_files.map (fun f => [f, "api/" ++ f, "../" ++ f])).flatten

/-- create_minimal_dictionary of api/index.py: the five hardcoded
entries. -/
def create_minimal_dictionary : Dict :=
  [("ilé", ⟨"ilé", "noun", ["ilẹ̀", "ibùgbé", "afin", "ààfin", "ìdí"]⟩),
   ("ọmọ", ⟨"ọmọ", "noun", ["ọmọbíbí", "àbíkẹ́", "arọ́mọdọ́mọ", "ọmọkùnrin", "ọmọbìnrin"]⟩),
   ("omi", ⟨"omi", "noun", ["ìdàdò", "ìkòrò", "adágún", "odo", "odò"]⟩),
   ("dára", ⟨"dára", "adjective", ["pẹ̀lẹ́", "rẹwà", "tòótọ́", "dáradára", "ṣàn"]⟩),
   ("jẹ", ⟨"jẹ", "verb", ["gbà", "mu", "fẹ́", "gbé", "mú"]⟩)]

/-- load_dictionary of api/index.py: try every candidate path in order,
return the first dictionary that opens and parses, and fall back to the
minimal dictionary when none does. -/
def load_dictionary (fs : String → FileResult) : Dict :=
  match all_paths.findSome?
      (fun p => match fs p with | .ok d => some d | _ => none) with
  | some d => d
  | none => create_minimal_dictionary

/-! ## The module-level dictionary extension (api/index.py)

While the dictionary has fewer than 50 entries, generate a headword, a
part of speech and 3 to 5 synonym candidates, skip headwords already
present, and append the new entry.  The random generator outputs are
abstracted as an explicit stream of candidates. -/

/-- One candidate produced by the generation loop: the generated
headword, the chosen part of speech and the 3 to 5 generated synonym
words (before duplicate filtering). -/
structure GenCand where
  headword : String
  pos : String
  rawSynonyms : List String

/-- The synonym accumulation of the extension loop: append each
generated word unless already collected. -/
def buildSynonyms (raw : List String) : List String :=
  raw.foldl (fun acc s => if s ∈ acc then acc else acc ++ [s]) []

/-- One iteration of the extension while-loop. -/
def extendStep (d : Dict) (c : GenCand) : Dict :=
  if d.length < 50 then
    if c.headword ∈ dictKeys d then d
    else d ++ [(c.headword, ⟨c.headword, c.pos, buildSynonyms c.rawSynonyms⟩)]
  else d

/-- The extension loop over a stream of generated candidates. -/
def extendDictionary (d : Dict) (cands : List GenCand) : Dict :=
  cands.foldl extendStep d

/-- The module-level startup of api/index.py: load the dictionary, then
extend it while it has fewer than 50 entries. -/
def api_startup (fs : String → FileResult) (cands : List GenCand) : Dict :=
  extendDictionary (load_dictionary fs) cands

/-! ## The /api/search endpoint (api/index.py api_search) -/

/-- The JSON response of /api/search: either an error body with an HTTP
status, or the search payload. -/
inductive ApiResponse where
  | error (status : Nat) (message : String)
  | ok (query : String) (results : List SearchResult) (dictionary_size : Nat)
  deriving DecidableEq

/-- api_search: read the query parameter (absent means the empty-string
default), answer 400 without searching when it is falsy, otherwise run
search_synonyms and return the payload. -/
def api_search (sample : List String → List String) (d : Dict)
    (queryParam : Option String) (max_results : Nat) : ApiResponse :=
  let query := queryParam.getD ""
  if query = "" then .error 400 "Query parameter is required"
  else .ok query (search_synonyms_api sample query d max_results) d.length

/-! ## Dictionary size classification (simple_app.py footer and the
api/index.py HTML template) -/

/-- simple_app.py: "massive" if len >= 100000 else "expanded" if
len >= 2500 else "basic". -/
def dictionary_type (n : Nat) : String :=
  if 100000 ≤ n then "massive" else if 2500 ≤ n then "expanded" else "basic"

/-- The same thresholds in the api/index.py Jinja template (capitalized
labels). -/
def template_dictionary_label (n : Nat) : String :=
  if 100000 ≤ n then "Massive" else if 2500 ≤ n then "Expanded" else "Basic"

/-! ## The expansion batch step
(scripts/expand_massive_dictionary.py, expand_massive_dictionary)

For each entry to add: up to 50 attempts to generate an entry whose
headword is not yet used; on success the entry is stored under its
headword.  If the 50 attempts all collide, the 50th entry is stored
under its headword extended by a random numeric suffix, without a
further collision check; and when the successful attempt is exactly the
50th, the suffix branch also fires on the already-stored entry object.
The generated entries and the suffix are abstracted as inputs. -/

/-- The attempt loop: try candidate indices start, start+1, ... for
fuel attempts, returning the first index whose headword is unused. -/
def findFreshAux (existing : List String) (cands : Nat → Entry) :
    Nat → Nat → Option Nat
  | 0, _ => none
  | fuel + 1, start =>
      if (cands start).headword ∈ existing then
        findFreshAux existing cands fuel (start + 1)
      else some start

/-- Index (0-based; attempt i+1 of the Python loop) of the first of the
50 generation attempts with an unused headword. -/
def freshIdx (existing : List String) (cands : Nat → Entry) : Option Nat :=
  findFreshAux existing cands 50 0

/-- One slot of the expansion batch loop: the attempt loop, the insert,
and the suffix fallback (which also fires when the successful attempt is
the 50th, mutating the entry object that was just stored). -/
def expandAttempt (d : Dict) (existing : List String) (cands : Nat → Entry)
    (suffix : String) : Dict × List String :=
  match freshIdx existing cands with
  | some i =>
    let e := cands i
    let d1 := dictInsert d e.headword e
    let ex1 := existing ++ [e.headword]
    if i == 49 then
      let e2 : Entry := { e with headword := e.headword ++ suffix }
      (dictInsert (dictInsert d1 e.headword e2) (e.headword ++ suffix) e2,
       ex1 ++ [e.headword ++ suffix])
    else (d1, ex1)
  | none =>
    let e := cands 49
    let e2 : Entry := { e with headword := e.headword ++ suffix }
    (dictInsert d (e.headword ++ suffix) e2,
     existing ++ [e.headword ++ suffix])

/-! ## generate_enhanced_synonyms
(scripts/expand_massive_dictionary.py)

num_synonyms = randint(4, 7); headword variations are added first, then
up to 30 attempts draw from the vocabulary list, then generated words
fill the remaining slots until num_synonyms is reached.  The random
draws are abstracted as input lists. -/

/-- Append a candidate synonym unless it equals the headword or is
already collected. -/
def addFresh (headword : String) (acc : List String) (w : String) :
    List String :=
  if w ≠ headword ∧ w ∉ acc then acc ++ [w] else acc

/-- The variations loop: every fresh variation is appended. -/
def fillVariations (headword : String) (variations : List String) :
    List String :=
  variations.foldl (addFresh headword) []

/-- The vocabulary loop: at most 30 attempts, stopping once
num_synonyms is reached. -/
def fillFromList (headword : String) (num : Nat) (attempts : List String)
    (acc : List String) : List String :=
  (attempts.take 30).foldl
    (fun a w => if a.length < num then addFresh headword a w else a) acc

/-- The generated-words loop: keep drawing until num_synonyms is
reached (the stream of draws is the explicit list gens; the Python loop
is unbounded and corresponds to a sufficiently long stream). -/
def fillFromGen (headword : String) (num : Nat) :
    List String → List String → List String
  | [], acc => acc
  | w :: ws, acc =>
      if acc.length < num then fillFromGen headword num ws (addFresh headword acc w)
      else acc

/-- generate_enhanced_synonyms: variations, then vocabulary draws, then
generated fillers. -/
def generate_enhanced_synonyms (headword : String) (num : Nat)
    (variations attempts gens : List String) : List String :=
  fillFromGen headword num gens
    (fillFromList headword num attempts (fillVariations headword variations))

/-! ## State-threaded search (for the read-only claim)

The Python search functions live beside a module-global dictionary; the
threaded variants make the dictionary state explicit at every stage and
return it alongside the results. -/

/-- search_synonyms with the dictionary threaded through and returned. -/
def search_synonyms_tr (q : String) (d : Dict) (max_results : Nat) :
    List SearchResult × Dict :=
  match dictLookup d (normalize_word q) with
  | some e => ([⟨1, 1, e⟩], d)
  | none =>
    match scanParent d (normalize_word q) with
    | some e => ([⟨1, 1, e⟩], d)
    | none => (fuzzyResults d (dictKeys d) (normalize_word q) max_results, d)

/-- search_synonyms_api with the dictionary threaded and returned. -/
def search_synonyms_api_tr (sample : List String → List String) (q : String)
    (d : Dict) (max_results : Nat) : List SearchResult × Dict :=
  match dictLookup d (normalize_word q) with
  | some e => ([⟨1, 1, e⟩], d)
  | none =>
    match scanParent (d.take 1000) (normalize_word q) with
    | some e => ([⟨1, 1, e⟩], d)
    | none =>
      (fuzzyResults d (consideredKeys sample d) (normalize_word q) max_results, d)

/-! ## Structural well-formedness of a result list -/

/-- The shape every result list should have: at most max_results
results, ranks 1..k in order, non-increasing similarity, and every
entry drawn from the dictionary. -/
def structuralOK (rs : List SearchResult) (d : Dict) (n : Nat) : Prop :=
  rs.length ≤ n
  ∧ (∀ i (hi : i < rs.length), (rs.get ⟨i, hi⟩).rank = i + 1)
  ∧ (∀ i j (hi : i < rs.length) (hj : j < rs.length), i ≤ j →
      (rs.get ⟨j, hj⟩).similarity ≤ (rs.get ⟨i, hi⟩).similarity)
  ∧ (∀ r ∈ rs, r.entry ∈ d.map Prod.snd)

/-! ## Concrete data for witnesses and counterexamples -/

/-- A small concrete dictionary (ASCII transliterations keep the
normalization evaluation elementary). -/
def exDict : Dict :=
  [("ile", ⟨"ile", "noun", ["ibugbe", "afin"]⟩),
   ("omi", ⟨"omi", "noun", ["odo", "adagun"]⟩),
   ("dara", ⟨"dara", "adjective", ["rewa"]⟩)]

/-- A two-entry dictionary on which the expansion suffix fallback
collides with the existing key a1. -/
def c8Dict : Dict :=
  [("a", ⟨"a", "noun", ["s"]⟩), ("a1", ⟨"a1", "noun", ["t"]⟩)]

/-- A single-entry dictionary for the normal-path expansion witness. -/
def dA : Dict := [("a", ⟨"a", "noun", ["s"]⟩)]

/-- A generation stream whose every attempt produces the fresh headword
b. -/
def candB : Nat → Entry := fun _ => ⟨"b", "noun", ["x"]⟩

/-- A generation stream whose every attempt produces the colliding
headword a. -/
def candA : Nat → Entry := fun _ => ⟨"a", "noun", ["x"]⟩

/-- A startup-extension candidate with a duplicated raw synonym. -/
def genCandTuntun : GenCand := ⟨"tuntun", "noun", ["s1", "s1", "s2"]⟩

/-- The parent entry sitting just beyond the 1000-entry synonym-scan
limit of the web variants. -/
def parentEntry : Entry := ⟨"h1000", "noun", ["qqq"]⟩

/-- A dictionary of 1001 entries: 1000 filler entries followed by
parentEntry, whose synonym "qqq" can only be found by an unlimited
synonym scan. -/
def bigDict : Dict :=
  ((List.range 1000).map
    (fun i => (("h" ++ Nat.repr i, ⟨"h" ++ Nat.repr i, "noun", ["s"]⟩) : String × Entry)))
  ++ [("h1000", parentEntry)]

/-! ## Helper lemmas -/

lemma mem_insertDesc {y x : ℚ × String} {l : List (ℚ × String)} :
    y ∈ insertDesc x l ↔ y = x ∨ y ∈ l := by
  induction l with
  | nil => simp [insertDesc]
  | cons z zs ih =>
    by_cases h : pairGT x z = true
    · simp [insertDesc, h]
    · simp only [insertDesc, h, if_neg, Bool.not_eq_true] at *
      simp [List.mem_cons, ih]
      tauto

lemma mem_sortDesc {y : ℚ × String} {l : List (ℚ × String)} :
    y ∈ sortDesc l ↔ y ∈ l := by
  induction l with
  | nil => simp [sortDesc]
  | cons z zs ih => simp [sortDesc, mem_insertDesc, ih]

lemma get_close_matches_length_le (w : String) (ps : List String) (n : Nat)
    (c : ℚ) : (get_close_matches w ps n c).length ≤ n := by
  unfold get_close_matches
  simp only [List.length_map]
  exact le_trans (Nat.le_of_eq (List.length_take ..)) (Nat.min_le_left ..)

lemma mem_of_mem_get_close_matches {w x : String} {ps : List String}
    {n : Nat} {c : ℚ} (h : x ∈ get_close_matches w ps n c) : x ∈ ps := by
  unfold get_close_matches at h
  simp only [List.mem_map] at h
  obtain ⟨p, hp, hpx⟩ := h
  have h1 : p ∈ sortDesc ((ps.filter (fun y => decide (c ≤ ratio y w))).map
      (fun y => (ratio y w, y))) := List.take_subset _ _ hp
  rw [mem_sortDesc] at h1
  simp only [List.mem_map] at h1
  obtain ⟨y, hy, hyp⟩ := h1
  subst hyp
  subst hpx
  exact List.mem_of_mem_filter hy

lemma get_close_matches_eq_nil {w : String} {ps : List String} {n : Nat}
    {c : ℚ} (h : ∀ x ∈ ps, ratio x w < c) :
    get_close_matches w ps n c = [] := by
  unfold get_close_matches
  have hf : ps.filter (fun y => decide (c ≤ ratio y w)) = [] := by
    rw [List.filter_eq_nil_iff]
    intro a ha
    simpa using not_le.mpr (h a ha)
  rw [hf]
  simp [sortDesc]

lemma dictLookup_mem {d : Dict} {k : String} {e : Entry}
    (h : dictLookup d k = some e) : e ∈ d.map Prod.snd := by
  unfold dictLookup at h
  cases hf : d.find? (fun p => p.1 == k) with
  | none => rw [hf] at h; cases h
  | some p =>
    rw [hf] at h
    cases h
    exact List.mem_map_of_mem Prod.snd (List.mem_of_find?_eq_some hf)

lemma dictLookup_isSome_of_mem_keys {d : Dict} {k : String}
    (h : k ∈ dictKeys d) : ∃ e, dictLookup d k = some e := by
  unfold dictLookup
  unfold dictKeys at h
  obtain ⟨p, hp, hpk⟩ := List.mem_map.mp h
  have : (d.find? (fun q => q.1 == k)).isSome := by
    rw [List.find?_isSome]
    exact ⟨p, hp, by simp [hpk]⟩
  obtain ⟨q, hq⟩ := Option.isSome_iff_exists.mp this
  exact ⟨q.2, by rw [hq]; rfl⟩

lemma scanParent_mem {d : Dict} {q : String} {e : Entry}
    (h : scanParent d q = some e) : e ∈ d.map Prod.snd := by
  unfold scanParent at h
  cases hf : d.find? (fun p => p.2.synonyms.any (fun s => normalize_word s == q)) with
  | none => rw [hf] at h; cases h
  | some p =>
    rw [hf] at h
    cases h
    exact List.mem_map_of_mem Prod.snd (List.mem_of_find?_eq_some hf)

lemma scanParent_take_none {d : Dict} {q : String} {m : Nat}
    (h : scanParent d q = none) : scanParent (d.take m) q = none := by
  unfold scanParent at *
  rw [Option.map_eq_none'] at *
  rw [List.find?_eq_none] at *
  exact fun p hp => h p (List.take_subset m d hp)

lemma scanParent_isSome {d : Dict} {q : String}
    (h : ∃ p ∈ d, ∃ s ∈ p.2.synonyms, normalize_word s = q) :
    ∃ e, scanParent d q = some e := by
  obtain ⟨p, hp, s, hs, hsq⟩ := h
  have : (d.find? (fun r => r.2.synonyms.any (fun t => normalize_word t == q))).isSome := by
    rw [List.find?_isSome]
    exact ⟨p, hp, List.any_eq_true.mpr ⟨s, hs, by simp [hsq]⟩⟩
  obtain ⟨r, hr⟩ := Option.isSome_iff_exists.mp this
  exact ⟨r.2, by unfold scanParent; rw [hr]; rfl⟩

lemma mkRat_sim (i : Nat) : mkRat (10 - (i : Int)) 10 = 1 - (i : ℚ) / 10 := by
  rw [Rat.mkRat_eq_div]
  push_cast
  ring

lemma mkRat_cutoff : (mkRat 3 5 : ℚ) = 3 / 5 := by
  rw [Rat.mkRat_eq_div]
  norm_num

lemma sim_antitone {i j : Nat} (h : i ≤ j) :
    mkRat (10 - (j : Int)) 10 ≤ mkRat (10 - (i : Int)) 10 := by
  rw [mkRat_sim, mkRat_sim]
  have hq : (i : ℚ) ≤ (j : ℚ) := by exact_mod_cast h
  linarith

lemma fuzzyResults_length (d : Dict) (cs : List String) (q : String) (n : Nat) :
    (fuzzyResults d cs q n).length = (get_close_matches q cs n (mkRat 3 5)).length := by
  unfold fuzzyResults
  rw [List.length_map, List.enum_length]

lemma fuzzyResults_map_entry (d : Dict) (cs : List String) (q : String) (n : Nat) :
    (fuzzyResults d cs q n).map SearchResult.entry
      = (get_close_matches q cs n (mkRat 3 5)).map
          (fun m => (dictLookup d m).getD default) := by
  unfold fuzzyResults
  rw [List.map_map]
  have : (SearchResult.entry ∘ fun p : Nat × String =>
      ({ rank := p.1 + 1, similarity := mkRat (10 - (p.1 : Int)) 10,
         entry := (dictLookup d p.2).getD default } : SearchResult))
      = (fun m => (dictLookup d m).getD default) ∘ Prod.snd := rfl
  rw [this, ← List.map_map, List.enum_map_snd]

lemma fuzzyResults_get (d : Dict) (cs : List String) (q : String) (n : Nat)
    (i : Nat) (hi : i < (fuzzyResults d cs q n).length) :
    ((fuzzyResults d cs q n).get ⟨i, hi⟩).rank = i + 1
    ∧ ((fuzzyResults d cs q n).get ⟨i, hi⟩).similarity = mkRat (10 - (i : Int)) 10 := by
  have hi' : i < (get_close_matches q cs n (mkRat 3 5)).enum.length := by
    unfold fuzzyResults at hi
    rw [List.length_map] at hi
    exact hi
  have hi2 : i < (get_close_matches q cs n (mkRat 3 5)).length := by
    rw [List.enum_length] at hi'
    exact hi'
  constructor
  · show (fuzzyResults d cs q n)[i].rank = i + 1
    unfold fuzzyResults
    rw [List.getElem_map, List.getElem_enum]
  · show (fuzzyResults d cs q n)[i].similarity = mkRat (10 - (i : Int)) 10
    unfold fuzzyResults
    rw [List.getElem_map, List.getElem_enum]

lemma fuzzyResults_entry_mem {d : Dict} {cs : List String} {q : String}
    {n : Nat} (hcs : ∀ x ∈ cs, x ∈ dictKeys d) :
    ∀ r ∈ fuzzyResults d cs q n, r.entry ∈ d.map Prod.snd := by
  intro r hr
  unfold fuzzyResults at hr
  obtain ⟨p, hp, hpr⟩ := List.mem_map.mp hr
  have hps : p.2 ∈ get_close_matches q cs n (mkRat 3 5) := by
    have := List.mem_map_of_mem Prod.snd hp
    rwa [List.enum_map_snd] at this
  have hkey : p.2 ∈ dictKeys d := hcs _ (mem_of_mem_get_close_matches hps)
  obtain ⟨e, he⟩ := dictLookup_isSome_of_mem_keys hkey
  have : r.entry = (dictLookup d p.2).getD default := by rw [← hpr]
  rw [this, he]
  exact dictLookup_mem he

lemma consideredKeys_subset {sample : List String → List String} {d : Dict}
    (hs : ∀ l x, x ∈ sample l → x ∈ l) :
    ∀ x ∈ consideredKeys sample d, x ∈ dictKeys d := by
  intro x hx
  unfold consideredKeys at hx
  by_cases h : 10000 < (dictKeys d).length
  · rw [if_pos h] at hx
    rcases List.mem_append.mp hx with h1 | h2
    · exact List.take_subset _ _ h1
    · exact List.mem_of_mem_drop (hs _ _ h2)
  · rw [if_neg h] at hx
    exact hx

/-! ## Claim theorems -/

/-- C1: when the normalized query is a dictionary key, every
search_synonyms variant returns exactly the one result with rank 1,
similarity 1.0 and that key's entry; the conclusion is produced by the
direct-match branch alone, so the synonym-scan and fuzzy stages are
never consulted. -/
theorem direct_headword_hit (q : String) (d : Dict) (n : Nat)
    (sample : List String → List String) (e : Entry)
    (h : dictLookup d (normalize_word q) = some e) :
    search_synonyms q d n = [⟨1, 1, e⟩]
    ∧ search_synonyms_api sample q d n = [⟨1, 1, e⟩] := by
  constructor
  · unfold search_synonyms
    rw [h]
  · unfold search_synonyms_api
    rw [h]

/-- Witness for C1 at a concrete query needing both lowercasing and
stripping. -/
theorem direct_headword_hit_witness :
    search_synonyms " ILE " exDict 3 = [⟨1, 1, ⟨"ile", "noun", ["ibugbe", "afin"]⟩⟩]
    ∧ search_synonyms_api id " ILE " exDict 3
        = [⟨1, 1, ⟨"ile", "noun", ["ibugbe", "afin"]⟩⟩] :=
  direct_headword_hit " ILE " exDict 3 id _ (by decide)

/-- C2 (amended): when the normalized query is not a headword but is the
normalization of a listed synonym, the simple_query.py variant returns
the first entry in iteration order containing such a synonym, as a
single result with rank 1 and similarity 1.0; the simple_app.py and
api/index.py variants do the same only when such a parent entry lies
within the first 1000 entries reached by their limited synonym scan. -/
theorem synonym_scan_parent (q : String) (d : Dict) (n : Nat)
    (sample : List String → List String)
    (h1 : dictLookup d (normalize_word q) = none)
    (h2 : ∃ p ∈ d, ∃ s ∈ p.2.synonyms, normalize_word s = normalize_word q) :
    (∃ e, scanParent d (normalize_word q) = some e
      ∧ search_synonyms q d n = [⟨1, 1, e⟩]
      ∧ e ∈ d.map Prod.snd)
    ∧ ∀ e, scanParent (d.take 1000) (normalize_word q) = some e →
        search_synonyms_api sample q d n = [⟨1, 1, e⟩] := by
  constructor
  · obtain ⟨e, he⟩ := scanParent_isSome h2
    refine ⟨e, he, ?_, scanParent_mem he⟩
    unfold search_synonyms
    rw [h1, he]
  · intro e he
    unfold search_synonyms_api
    rw [h1, he]

/-- Counterexample to C2 as stated: in bigDict the only parent of the
synonym "qqq" is the 1001st entry, beyond the 1000-entry scan limit of
the web variants, so search_synonyms_api returns [] instead of the
parent entry (the unlimited simple_query.py variant does return it). -/
theorem synonym_scan_limit_counterexample :
    dictLookup bigDict (normalize_word "qqq") = none
    ∧ ("h1000", parentEntry) ∈ bigDict
    ∧ "qqq" ∈ parentEntry.synonyms
    ∧ normalize_word "qqq" = "qqq"
    ∧ search_synonyms_api id "qqq" bigDict 3 = []
    ∧ search_synonyms "qqq" bigDict 3 = [⟨1, 1, parentEntry⟩] := by
  refine ⟨by decide, List.mem_append_right _ (List.mem_singleton_self _),
    by decide, by decide, by decide, by decide⟩

/-- Witness for the amended C2 on a small dictionary where the scan
succeeds in every variant. -/
theorem synonym_scan_parent_witness :
    (∃ e, scanParent exDict (normalize_word "ODO") = some e
      ∧ search_synonyms "ODO" exDict 3 = [⟨1, 1, e⟩]
      ∧ e ∈ exDict.map Prod.snd)
    ∧ ∀ e, scanParent (exDict.take 1000) (normalize_word "ODO") = some e →
        search_synonyms_api id "ODO" exDict 3 = [⟨1, 1, e⟩] :=
  synonym_scan_parent "ODO" exDict 3 id (by decide) (by decide)

/-- C3: when both exact stages miss and difflib returns k close
matches, the variants return exactly those k matches in difflib's
order, the i-th (0-based) with rank i+1 and similarity exactly
1.0 - 0.1*i, its entry looked up at the matched key. -/
theorem fuzzy_stage_rank_similarity (q : String) (d : Dict) (n : Nat)
    (sample : List String → List String)
    (h1 : dictLookup d (normalize_word q) = none)
    (h2 : scanParent d (normalize_word q) = none) :
    ((search_synonyms q d n).length
        = (get_close_matches (normalize_word q) (dictKeys d) n (mkRat 3 5)).length
      ∧ (search_synonyms q d n).map SearchResult.entry
        = (get_close_matches (normalize_word q) (dictKeys d) n (mkRat 3 5)).map
            (fun m => (dictLookup d m).getD default)
      ∧ ∀ i (hi : i < (search_synonyms q d n).length),
          ((search_synonyms q d n).get ⟨i, hi⟩).rank = i + 1
          ∧ ((search_synonyms q d n).get ⟨i, hi⟩).similarity = 1 - (i : ℚ) / 10)
    ∧ ((search_synonyms_api sample q d n).length
        = (get_close_matches (normalize_word q) (consideredKeys sample d) n
            (mkRat 3 5)).length
      ∧ (search_synonyms_api sample q d n).map SearchResult.entry
        = (get_close_matches (normalize_word q) (consideredKeys sample d) n
            (mkRat 3 5)).map (fun m => (dictLookup d m).getD default)
      ∧ ∀ i (hi : i < (search_synonyms_api sample q d n).length),
          ((search_synonyms_api sample q d n).get ⟨i, hi⟩).rank = i + 1
          ∧ ((search_synonyms_api sample q d n).get ⟨i, hi⟩).similarity
              = 1 - (i : ℚ) / 10) := by
  have hs : search_synonyms q d n
      = fuzzyResults d (dictKeys d) (normalize_word q) n := by
    unfold search_synonyms
    rw [h1, h2]
  have hs' : search_synonyms_api sample q d n
      = fuzzyResults d (consideredKeys sample d) (normalize_word q) n := by
    unfold search_synonyms_api
    rw [h1, scanParent_take_none h2]
  constructor
  · rw [hs]
    refine ⟨fuzzyResults_length .., fuzzyResults_map_entry .., ?_⟩
    intro i hi
    obtain ⟨hr, hsim⟩ := fuzzyResults_get d (dictKeys d) (normalize_word q) n i hi
    exact ⟨hr, by rw [hsim, mkRat_sim]⟩
  · rw [hs']
    refine ⟨fuzzyResults_length .., fuzzyResults_map_entry .., ?_⟩
    intro i hi
    obtain ⟨hr, hsim⟩ :=
      fuzzyResults_get d (consideredKeys sample d) (normalize_word q) n i hi
    exact ⟨hr, by rw [hsim, mkRat_sim]⟩

/-- Witness for C3 at a query one edit away from the key ile. -/
theorem fuzzy_stage_rank_similarity_witness :
    ((search_synonyms "ilee" exDict 3).length
        = (get_close_matches (normalize_word "ilee") (dictKeys exDict) 3 (mkRat 3 5)).length
      ∧ (search_synonyms "ilee" exDict 3).map SearchResult.entry
        = (get_close_matches (normalize_word "ilee") (dictKeys exDict) 3 (mkRat 3 5)).map
            (fun m => (dictLookup exDict m).getD default)
      ∧ ∀ i (hi : i < (search_synonyms "ilee" exDict 3).length),
          ((search_synonyms "ilee" exDict 3).get ⟨i, hi⟩).rank = i + 1
          ∧ ((search_synonyms "ilee" exDict 3).get ⟨i, hi⟩).similarity = 1 - (i : ℚ) / 10)
    ∧ ((search_synonyms_api id "ilee" exDict 3).length
        = (get_close_matches (normalize_word "ilee") (consideredKeys id exDict) 3
            (mkRat 3 5)).length
      ∧ (search_synonyms_api id "ilee" exDict 3).map SearchResult.entry
        = (get_close_matches (normalize_word "ilee") (consideredKeys id exDict) 3
            (mkRat 3 5)).map (fun m => (dictLookup exDict m).getD default)
      ∧ ∀ i (hi : i < (search_synonyms_api id "ilee" exDict 3).length),
          ((search_synonyms_api id "ilee" exDict 3).get ⟨i, hi⟩).rank = i + 1
          ∧ ((search_synonyms_api id "ilee" exDict 3).get ⟨i, hi⟩).similarity
              = 1 - (i : ℚ) / 10) :=
  fuzzy_stage_rank_similarity "ilee" exDict 3 id (by decide) (by decide)

/-- C4: when both exact stages miss and no candidate headword reaches
the difflib cutoff 0.6 (= mkRat 3 5), both variants return the empty
list. -/
theorem far_query_empty (q : String) (d : Dict) (n : Nat)
    (sample : List String → List String)
    (h1 : dictLookup d (normalize_word q) = none)
    (h2 : scanParent d (normalize_word q) = none)
    (hk : ∀ x ∈ dictKeys d, ratio x (normalize_word q) < mkRat 3 5)
    (hc : ∀ x ∈ consideredKeys sample d, ratio x (normalize_word q) < mkRat 3 5) :
    search_synonyms q d n = [] ∧ search_synonyms_api sample q d n = [] := by
  constructor
  · unfold search_synonyms
    rw [h1, h2]
    unfold fuzzyResults
    rw [get_close_matches_eq_nil hk]
    rfl
  · unfold search_synonyms_api
    rw [h1, scanParent_take_none h2]
    unfold fuzzyResults
    rw [get_close_matches_eq_nil hc]
    rfl

/-- Witness for C4: a query sharing no characters with any headword. -/
theorem far_query_empty_witness :
    search_synonyms "zz" exDict 3 = [] ∧ search_synonyms_api id "zz" exDict 3 = [] :=
  far_query_empty "zz" exDict 3 id (by decide) (by decide) (by decide) (by decide)

/-- C5: the candidate paths are exactly the massive, expanded, static
files (each with its api/ and ../ variants) in that preference order;
when every candidate is missing or malformed the loader returns the
minimal in-code dictionary, which the startup code then extends with
generated entries; and the first successfully loading path wins. -/
theorem dictionary_fallback_chain :
    all_paths = ["yoruba_synonyms_massive.json", "api/yoruba_synonyms_massive.json",
      "../yoruba_synonyms_massive.json", "yoruba_synonyms_expanded.json",
      "api/yoruba_synonyms_expanded.json", "../yoruba_synonyms_expanded.json",
      "yoruba_synonyms_static.json", "api/yoruba_synonyms_static.json",
      "../yoruba_synonyms_static.json"]
    ∧ (∀ (fs : String → FileResult) (cands : List GenCand),
        (∀ p ∈ all_paths, (fs p).isOk = false) →
        load_dictionary fs = create_minimal_dictionary
        ∧ api_startup fs cands = extendDictionary create_minimal_dictionary cands)
    ∧ (∀ (fs : String → FileResult) (pre post : List String) (p : String) (d : Dict),
        all_paths = pre ++ p :: post →
        (∀ r ∈ pre, (fs r).isOk = false) →
        fs p = .ok d →
        load_dictionary fs = d) := by
  refine ⟨by decide, ?_, ?_⟩
  · intro fs cands hfail
    have hnone : all_paths.findSome?
        (fun p => match fs p with | .ok d => some d | _ => none) = none := by
      rw [List.findSome?_eq_none_iff]
      intro r hr
      have := hfail r hr
      cases hfr : fs r <;> simp [FileResult.isOk, hfr] at this ⊢
    constructor
    · unfold load_dictionary
      rw [hnone]
    · unfold api_startup load_dictionary
      rw [hnone]
  · intro fs pre post p d hsplit hpre hp
    unfold load_dictionary
    rw [hsplit, List.findSome?_append]
    have hprenone : pre.findSome?
        (fun r => match fs r with | .ok d => some d | _ => none) = none := by
      rw [List.findSome?_eq_none_iff]
      intro r hr
      have := hpre r hr
      cases hfr : fs r <;> simp [FileResult.isOk, hfr] at this ⊢
    rw [hprenone, List.findSome?_cons, hp]
    rfl

/-- Witness for C5: a file system with no readable candidate falls back
to the minimal dictionary, and one where only the expanded file parses
loads that file (after the three failing massive paths). -/
theorem dictionary_fallback_chain_witness :
    load_dictionary (fun _ => .missing) = create_minimal_dictionary
    ∧ api_startup (fun _ => .missing) []
        = extendDictionary create_minimal_dictionary []
    ∧ load_dictionary
        (fun p => if p = "yoruba_synonyms_expanded.json" then .ok exDict
                  else .missing) = exDict :=
  ⟨(dictionary_fallback_chain.2.1 (fun _ => .missing) [] (fun _ _ => rfl)).1,
   (dictionary_fallback_chain.2.1 (fun _ => .missing) [] (fun _ _ => rfl)).2,
   dictionary_fallback_chain.2.2
     (fun p => if p = "yoruba_synonyms_expanded.json" then .ok exDict else .missing)
     ["yoruba_synonyms_massive.json", "api/yoruba_synonyms_massive.json",
      "../yoruba_synonyms_massive.json"]
     ["api/yoruba_synonyms_expanded.json", "../yoruba_synonyms_expanded.json",
      "yoruba_synonyms_static.json", "api/yoruba_synonyms_static.json",
      "../yoruba_synonyms_static.json"]
     "yoruba_synonyms_expanded.json" exDict (by decide)
     (by intro r hr; fin_cases hr <;> rfl)
     (by rfl)⟩

/-- C6: a GET on /api/search with a missing or empty query parameter
yields the 400 JSON error without consulting the dictionary (the
response is the same for every dictionary), and a non-empty query
yields the search payload. -/
theorem api_search_empty_query (sample : List String → List String)
    (d : Dict) (n : Nat) :
    api_search sample d none n = .error 400 "Query parameter is required"
    ∧ api_search sample d (some "") n = .error 400 "Query parameter is required"
    ∧ (∀ d' : Dict, api_search sample d none n = api_search sample d' none n
        ∧ api_search sample d (some "") n = api_search sample d' (some "") n)
    ∧ ∀ q : String, q ≠ "" →
        api_search sample d (some q) n
          = .ok q (search_synonyms_api sample q d n) d.length := by
  refine ⟨rfl, rfl, fun d' => ⟨rfl, rfl⟩, ?_⟩
  intro q hq
  unfold api_search
  simp [hq]

/-- Witness for C6 on a concrete dictionary and query. -/
theorem api_search_empty_query_witness :
    api_search id exDict none 5 = .error 400 "Query parameter is required"
    ∧ api_search id exDict (some "") 5 = .error 400 "Query parameter is required"
    ∧ api_search id exDict (some "ile") 5
        = .ok "ile" (search_synonyms_api id "ile" exDict 5) exDict.length :=
  ⟨(api_search_empty_query id exDict 5).1,
   (api_search_empty_query id exDict 5).2.1,
   (api_search_empty_query id exDict 5).2.2.2 "ile" (by decide)⟩

/-- C7: the displayed size class is a function of the entry count alone,
with massive exactly at 100000 and above, expanded exactly from 2500
below 100000, and basic exactly below 2500 — in both the simple_app.py
footer and the api/index.py template. -/
theorem dictionary_size_classification (n : Nat) :
    (dictionary_type n = "massive" ↔ 100000 ≤ n)
    ∧ (dictionary_type n = "expanded" ↔ 2500 ≤ n ∧ n < 100000)
    ∧ (dictionary_type n = "basic" ↔ n < 2500)
    ∧ (template_dictionary_label n = "Massive" ↔ 100000 ≤ n)
    ∧ (template_dictionary_label n = "Expanded" ↔ 2500 ≤ n ∧ n < 100000)
    ∧ (template_dictionary_label n = "Basic" ↔ n < 2500) := by
  unfold dictionary_type template_dictionary_label
  split_ifs with h1 h2
  · exact ⟨iff_of_true rfl h1, iff_of_false (by decide) (by omega),
      iff_of_false (by decide) (by omega), iff_of_true rfl h1,
      iff_of_false (by decide) (by omega), iff_of_false (by decide) (by omega)⟩
  · exact ⟨iff_of_false (by decide) h1, iff_of_true rfl ⟨h2, by omega⟩,
      iff_of_false (by decide) (by omega), iff_of_false (by decide) h1,
      iff_of_true rfl ⟨h2, by omega⟩, iff_of_false (by decide) (by omega)⟩
  · exact ⟨iff_of_false (by decide) h1, iff_of_false (by decide) (by tauto),
      iff_of_true rfl (by omega), iff_of_false (by decide) h1,
      iff_of_false (by decide) (by tauto), iff_of_true rfl (by omega)⟩

lemma findFreshAux_spec (existing : List String) (cands : Nat → Entry) :
    ∀ fuel start i, findFreshAux existing cands fuel start = some i →
      (cands i).headword ∉ existing := by
  intro fuel
  induction fuel with
  | zero => intro start i h; cases h
  | succ f ih =>
    intro start i h
    unfold findFreshAux at h
    by_cases hc : (cands start).headword ∈ existing
    · rw [if_pos hc] at h
      exact ih _ _ h
    · rw [if_neg hc] at h
      cases h
      exact hc

lemma fillFromGen_length (headword : String) (num : Nat) :
    ∀ (ws acc : List String), ws.Nodup →
    (∀ w ∈ ws, w ≠ headword ∧ w ∉ acc) →
    min num (acc.length + ws.length) ≤ (fillFromGen headword num ws acc).length := by
  intro ws
  induction ws with
  | nil =>
    intro acc _ _
    simp only [fillFromGen, List.length_nil, Nat.add_zero]
    exact Nat.min_le_right num acc.length
  | cons w ws ih =>
    intro acc hnd hfr
    show min num (acc.length + (w :: ws).length)
      ≤ (if acc.length < num then fillFromGen headword num ws (addFresh headword acc w)
         else acc).length
    by_cases hlen : acc.length < num
    · have hw := hfr w (List.mem_cons_self w ws)
      have haf : addFresh headword acc w = acc ++ [w] := by
        unfold addFresh
        rw [if_pos hw]
      rw [if_pos hlen, haf]
      have hnd' : ws.Nodup := (List.nodup_cons.mp hnd).2
      have hwmem : w ∉ ws := (List.nodup_cons.mp hnd).1
      have hfr' : ∀ v ∈ ws, v ≠ headword ∧ v ∉ acc ++ [w] := by
        intro v hv
        refine ⟨(hfr v (List.mem_cons_of_mem w hv)).1, ?_⟩
        intro hvm
        rcases List.mem_append.mp hvm with h1 | h2
        · exact (hfr v (List.mem_cons_of_mem w hv)).2 h1
        · rw [List.mem_singleton] at h2
          subst h2
          exact hwmem hv
      have := ih (acc ++ [w]) hnd' hfr'
      simp only [List.length_append, List.length_singleton, List.length_cons] at this ⊢
      omega
    · rw [if_neg hlen]
      have : min num (acc.length + (w :: ws).length) ≤ num := Nat.min_le_left ..
      omega

lemma buildSynonyms_foldl_mono :
    ∀ (raw acc : List String),
      acc.length ≤ (raw.foldl
        (fun acc s => if s ∈ acc then acc else acc ++ [s]) acc).length := by
  intro raw
  induction raw with
  | nil => intro acc; simp
  | cons w ws ih =>
    intro acc
    simp only [List.foldl_cons]
    by_cases hw : w ∈ acc
    · rw [if_pos hw]
      exact ih acc
    · rw [if_neg hw]
      have := ih (acc ++ [w])
      simp only [List.length_append, List.length_singleton] at this
      omega

lemma buildSynonyms_ne_nil {raw : List String} (h : raw ≠ []) :
    buildSynonyms raw ≠ [] := by
  cases raw with
  | nil => exact absurd rfl h
  | cons w ws =>
    have hstep : buildSynonyms (w :: ws)
        = ws.foldl (fun acc s => if s ∈ acc then acc else acc ++ [s]) [w] := by
      unfold buildSynonyms
      rw [List.foldl_cons, if_neg (List.not_mem_nil w), List.nil_append]
    intro hnil
    rw [hstep] at hnil
    have h1 := buildSynonyms_foldl_mono ws [w]
    rw [hnil] at h1
    simp at h1

/-- C8 (amended): an expansion slot whose fresh headword is found within
the first 49 attempts appends a single new entry whose key equals its
headword field and overwrites nothing; generate_enhanced_synonyms
reaches its target of at least 4 synonyms whenever the generated-word
stream supplies enough distinct words; and the startup extension never
overwrites, stores the headword as the key, and produces a non-empty
synonym list from a non-empty draw.  (The suffix fallback path after 50
colliding attempts is excluded: it can overwrite, see the
counterexample.) -/
theorem expansion_generation_invariants :
    (∀ (d : Dict) (existing : List String) (cands : Nat → Entry)
        (suffix : String) (i : Nat),
      (∀ k ∈ dictKeys d, k ∈ existing) →
      freshIdx existing cands = some i → i < 49 →
      (cands i).headword ∉ dictKeys d
      ∧ expandAttempt d existing cands suffix
          = (d ++ [((cands i).headword, cands i)],
             existing ++ [(cands i).headword]))
    ∧ (∀ (headword : String) (num : Nat) (variations attempts gens : List String),
        4 ≤ num → gens.Nodup →
        (∀ w ∈ gens, w ≠ headword
          ∧ w ∉ fillFromList headword num attempts (fillVariations headword variations)) →
        num ≤ (fillFromList headword num attempts
                (fillVariations headword variations)).length + gens.length →
        4 ≤ (generate_enhanced_synonyms headword num variations attempts gens).length)
    ∧ (∀ (d : Dict) (c : GenCand),
        (d.length < 50 → c.headword ∉ dictKeys d →
          extendStep d c
            = d ++ [(c.headword, ⟨c.headword, c.pos, buildSynonyms c.rawSynonyms⟩)])
        ∧ (c.headword ∈ dictKeys d → extendStep d c = d)
        ∧ (c.rawSynonyms ≠ [] → buildSynonyms c.rawSynonyms ≠ [])) := by
  refine ⟨?_, ?_, ?_⟩
  · intro d existing cands suffix i hsub hfresh hlt
    have hne : (cands i).headword ∉ existing :=
      findFreshAux_spec existing cands 50 0 i hfresh
    have hnk : (cands i).headword ∉ dictKeys d := fun hk => hne (hsub _ hk)
    refine ⟨hnk, ?_⟩
    unfold expandAttempt
    rw [hfresh]
    have h49 : (i == 49) = false := by
      simp only [beq_eq_false_iff_ne, ne_eq]
      omega
    dsimp only
    rw [h49, if_neg Bool.false_ne_true]
    unfold dictInsert
    rw [if_neg hnk]
  · intro headword num variations attempts gens h4 hnd hfr hsup
    unfold generate_enhanced_synonyms
    have := fillFromGen_length headword num gens
      (fillFromList headword num attempts (fillVariations headword variations))
      hnd hfr
    have hmin : min num
        ((fillFromList headword num attempts (fillVariations headword variations)).length
          + gens.length) = num := Nat.min_eq_left hsup
    omega
  · intro d c
    refine ⟨?_, ?_, fun h => buildSynonyms_ne_nil h⟩
    · intro hlen hnk
      unfold extendStep
      rw [if_pos hlen, if_neg hnk]
    · intro hk
      unfold extendStep
      by_cases hlen : d.length < 50
      · rw [if_pos hlen, if_pos hk]
      · rw [if_neg hlen]

/-- Counterexample to C8 as stated: after 50 colliding attempts the
suffix fallback stores the 50th entry under headword ++ suffix without
re-checking uniqueness, here replacing the existing entry at key a1 (the
dictionary keeps its two keys but the entry stored at a1 changes). -/
theorem expansion_overwrite_counterexample :
    dictKeys c8Dict = ["a", "a1"]
    ∧ (expandAttempt c8Dict ["a", "a1"] candA "1").1
        = [("a", ⟨"a", "noun", ["s"]⟩), ("a1", ⟨"a1", "noun", ["x"]⟩)]
    ∧ dictLookup (expandAttempt c8Dict ["a", "a1"] candA "1").1 "a1"
        ≠ dictLookup c8Dict "a1" := by
  exact ⟨by decide, by decide, by decide⟩

/-- Witness for the amended C8 on concrete streams: a fresh first
attempt appends cleanly, four distinct generated words reach the
four-synonym target, and the startup extension appends a deduplicated
non-empty synonym list. -/
theorem expansion_generation_invariants_witness :
    ((candB 0).headword ∉ dictKeys dA
      ∧ expandAttempt dA ["a"] candB "9"
          = (dA ++ [((candB 0).headword, candB 0)], ["a"] ++ [(candB 0).headword]))
    ∧ 4 ≤ (generate_enhanced_synonyms "h" 4 [] [] ["a", "b", "c", "d"]).length
    ∧ (extendStep exDict genCandTuntun
        = exDict ++ [(genCandTuntun.headword,
            ⟨genCandTuntun.headword, genCandTuntun.pos,
             buildSynonyms genCandTuntun.rawSynonyms⟩)]
      ∧ buildSynonyms genCandTuntun.rawSynonyms ≠ []) :=
  ⟨expansion_generation_invariants.1 dA ["a"] candB "9" 0 (by decide) (by decide)
     (by decide),
   expansion_generation_invariants.2.1 "h" 4 [] [] ["a", "b", "c", "d"]
     (by decide) (by decide) (by decide) (by decide),
   (expansion_generation_invariants.2.2 exDict genCandTuntun).1 (by decide) (by decide),
   (expansion_generation_invariants.2.2 exDict genCandTuntun).2.2 (by decide)⟩

/-- C9: a lookup never mutates the dictionary: the state-threaded
variants return the dictionary exactly as given, alongside exactly the
results of the corresponding search function. -/
theorem search_preserves_dictionary (q : String) (d : Dict) (n : Nat)
    (sample : List String → List String) :
    (search_synonyms_tr q d n).2 = d
    ∧ (search_synonyms_tr q d n).1 = search_synonyms q d n
    ∧ (search_synonyms_api_tr sample q d n).2 = d
    ∧ (search_synonyms_api_tr sample q d n).1 = search_synonyms_api sample q d n := by
  unfold search_synonyms_tr search_synonyms_api_tr search_synonyms search_synonyms_api
  cases dictLookup d (normalize_word q) <;>
    cases scanParent d (normalize_word q) <;>
      cases scanParent (d.take 1000) (normalize_word q) <;>
        exact ⟨rfl, rfl, rfl, rfl⟩

lemma singleton_structuralOK {e : Entry} {d : Dict} {n : Nat} (hn : 1 ≤ n)
    (he : e ∈ d.map Prod.snd) : structuralOK [⟨1, 1, e⟩] d n := by
  refine ⟨by simp only [List.length_singleton]; exact hn, ?_, ?_, ?_⟩
  · intro i hi
    have : i = 0 := by simpa using Nat.lt_one_iff.mp (by simpa using hi)
    subst this
    rfl
  · intro i j hi hj _
    have hi0 : i = 0 := by simpa using Nat.lt_one_iff.mp (by simpa using hi)
    have hj0 : j = 0 := by simpa using Nat.lt_one_iff.mp (by simpa using hj)
    subst hi0
    subst hj0
    exact le_refl _
  · intro r hr
    rw [List.mem_singleton] at hr
    subst hr
    exact he

lemma fuzzyResults_structuralOK {d : Dict} {cs : List String} {q : String}
    {n : Nat} (hcs : ∀ x ∈ cs, x ∈ dictKeys d) :
    structuralOK (fuzzyResults d cs q n) d n := by
  refine ⟨?_, ?_, ?_, fuzzyResults_entry_mem hcs⟩
  · rw [fuzzyResults_length]
    exact get_close_matches_length_le ..
  · intro i hi
    exact (fuzzyResults_get d cs q n i hi).1
  · intro i j hi hj hij
    rw [(fuzzyResults_get d cs q n j hj).2, (fuzzyResults_get d cs q n i hi).2]
    exact sim_antitone hij

lemma scanParent_take_mem {d : Dict} {q : String} {m : Nat} {e : Entry}
    (h : scanParent (d.take m) q = some e) : e ∈ d.map Prod.snd := by
  have h1 := scanParent_mem h
  rw [List.map_take] at h1
  exact List.take_subset _ _ h1

/-- C10: for max_results at least 1 and a sample drawn from its
population (as random.sample guarantees), every variant returns at most
max_results results, with ranks exactly 1..k in order, non-increasing
similarity, and every returned entry stored in the dictionary. -/
theorem search_results_structural (q : String) (d : Dict) (n : Nat)
    (sample : List String → List String) (hn : 1 ≤ n)
    (hs : ∀ l x, x ∈ sample l → x ∈ l) :
    structuralOK (search_synonyms q d n) d n
    ∧ structuralOK (search_synonyms_api sample q d n) d n := by
  constructor
  · unfold search_synonyms
    cases hx : dictLookup d (normalize_word q) with
    | some e => exact singleton_structuralOK hn (dictLookup_mem hx)
    | none =>
      cases hy : scanParent d (normalize_word q) with
      | some e => exact singleton_structuralOK hn (scanParent_mem hy)
      | none => exact fuzzyResults_structuralOK (fun x h => h)
  · unfold search_synonyms_api
    cases hx : dictLookup d (normalize_word q) with
    | some e => exact singleton_structuralOK hn (dictLookup_mem hx)
    | none =>
      cases hy : scanParent (d.take 1000) (normalize_word q) with
      | some e => exact singleton_structuralOK hn (scanParent_take_mem hy)
      | none => exact fuzzyResults_structuralOK (consideredKeys_subset hs)

/-- Witness for C10 at a fuzzy-matched query. -/
theorem search_results_structural_witness :
    structuralOK (search_synonyms "ilee" exDict 3) exDict 3
    ∧ structuralOK (search_synonyms_api id "ilee" exDict 3) exDict 3 :=
  search_results_structural "ilee" exDict 3 id (by decide) (fun _ _ h => h)

end YorubaSynonymFinder
